import Mathlib

/-!
Verification of the bulk SMS campaign composer.

This file gives a shallow embedding of the composer core:

* the segmenter (SmsCostEstimate component: isGsm7Encodable, getGsm7CharCount,
  calculateSegments);
* the row classifier (the uploadFile transformation in CsvImportTab);
* the selection ledger and undo stack (the marketing store: setImportData,
  clearAllData, includeAllReady, includeNone, toggleInclusion, removeRow,
  removeSelected, undoRemove, dismissToast and the sending setters);
* the dispatch path (handleBroadcast and the broadcast button guard).

JavaScript data types are embedded as follows: strings are Lean String
(a list of unicode scalar values, matching for-of iteration over code
points); the JavaScript string length property, which counts UTF-16 code
units, is modelled by utf16Length; Set of string is Finset String;
arrays are lists; numbers holding list indices or character counts are Nat.
All definitions are executable and structurally recursive so that concrete
states evaluate inside the kernel.
-/

set_option maxRecDepth 8192

namespace QueueMgr

/-! ## Segmenter (SmsCostEstimate) -/

/-- The GSM-7 base character set, as listed in the GSM_7_CHARS constant.
The apostrophe (code 39) is appended through Char.ofNat. -/
def GSM_7_CHARS : List Char :=
  "@£$¥èéùìòÇ\nØø\rÅåΔ_ΦΓΛΩΠΨΣΘΞ !\"#¤%&".data
    ++ [Char.ofNat 39]
    ++ "()*+,-./0123456789:;<=>?¡ABCDEFGHIJKLMNOPQRSTUVWXYZÄÖÑÜ§¿abcdefghijklmnopqrstuvwxyzäöñüà".data

/-- The extended GSM-7 characters, which count as two characters each. -/
def GSM_7_EXTENDED : List Char := "|^€\x7b\x7d[]~\\".data

/-- Check whether every character of the message belongs to the GSM-7
alphabet (base or extended).  Mirrors isGsm7Encodable, which iterates the
code points of the message. -/
def isGsm7Encodable (message : String) : Bool :=
  message.data.all (fun c => GSM_7_CHARS.contains c || GSM_7_EXTENDED.contains c)

/-- GSM-7 weighted character count: extended characters count 2, all others
count 1.  Mirrors getGsm7CharCount. -/
def getGsm7CharCount (message : String) : Nat :=
  message.data.foldl (fun count c => count + (if GSM_7_EXTENDED.contains c then 2 else 1)) 0

/-- The JavaScript length property of a string counts UTF-16 code units:
a character beyond the Basic Multilingual Plane (code point at least
2^16) occupies a surrogate pair and counts 2. -/
def utf16Length (message : String) : Nat :=
  message.data.foldl (fun n c => n + (if c.toNat < 65536 then 1 else 2)) 0

inductive Encoding where
  | gsm7
  | ucs2
deriving DecidableEq

structure SegResult where
  segments : Nat
  encoding : Encoding
  charCount : Nat
deriving DecidableEq

/-- Segment computation of calculateSegments.  The empty message yields 0
segments; a GSM-7 encodable message uses the weighted count with limits
160 and 153; any other message uses UCS-2 with the UTF-16 length and
limits 70 and 67.  Math.ceil of a quotient is Nat ceiling division. -/
def calculateSegments (message : String) : SegResult :=
  if message.data.length = 0 then
    { segments := 0, encoding := Encoding.gsm7, charCount := 0 }
  else if isGsm7Encodable message then
    let charCount := getGsm7CharCount message
    { segments := if charCount ≤ 160 then 1 else (charCount + 152) / 153,
      encoding := Encoding.gsm7, charCount := charCount }
  else
    let charCount := utf16Length message
    { segments := if charCount ≤ 70 then 1 else (charCount + 66) / 67,
      encoding := Encoding.ucs2, charCount := charCount }

/-- totalSegments of the cost display: segments times recipientCount. -/
def totalSegments (message : String) (recipientCount : Nat) : Nat :=
  (calculateSegments message).segments * recipientCount

/-! ## Decimal rendering and parsing

The classifier builds row ids through template literals (row-0, error-1)
and parses row numbers out of error messages.  Decimal rendering of a Nat
is defined with explicit fuel so that it is structurally recursive and
kernel-reducible. -/

/-- Numeric value of a decimal digit character. -/
def digitVal (c : Char) : Nat := c.toNat - 48

/-- Decimal digit character for a value below 10. -/
def digitChar (d : Nat) : Char := Char.ofNat (48 + d)

/-- Value of a digit string, most significant digit first (parseInt on a
pure digit string). -/
def digitsToNat (ds : List Char) : Nat :=
  ds.foldl (fun a c => 10 * a + digitVal c) 0

/-- Decimal digits of n, accumulated least significant digit first onto
acc.  The first argument is fuel; fuel at least n suffices. -/
def natToDigitsAux : Nat → Nat → List Char → List Char
  | 0, _, acc => acc
  | _ + 1, 0, acc => acc
  | fuel + 1, n + 1, acc =>
    natToDigitsAux fuel ((n + 1) / 10) (digitChar ((n + 1) % 10) :: acc)

/-- Decimal rendering of a natural number. -/
def natToDigits (n : Nat) : List Char :=
  if n = 0 then [digitChar 0] else natToDigitsAux n n []

/-- Decimal rendering as a string (the template literal interpolation of a
number). -/
def natStr (n : Nat) : String := String.mk (natToDigits n)

/-! ## Row classifier (uploadFile in CsvImportTab) -/

inductive Status where
  | ready
  | excluded
deriving DecidableEq

structure Row where
  id : String
  rowIndex : Nat
  name : String
  phone : String
  status : Status
  errors : List String
deriving DecidableEq

structure Contact where
  name : String
  phone : String
deriving DecidableEq

/-- Leftmost match of the regular expression Row (\d+): scan for the text
Row followed by a space and at least one digit; the capture is the maximal
digit run, read as a decimal number.  Returns none when no position
matches, in which case the classifier falls back to a synthetic index. -/
def matchRowRef : List Char → Option Nat
  | [] => none
  | c :: cs =>
    match c, cs with
    | 'R', 'o' :: 'w' :: ' ' :: rest =>
      let ds := rest.takeWhile Char.isDigit
      if ds.isEmpty then matchRowRef cs else some (digitsToNat ds)
    | _, _ => matchRowRef cs

/-- The ready row built for the valid contact at position idx. -/
def mkContactRow (idx : Nat) (c : Contact) : Row :=
  { id := "row-" ++ natStr idx, rowIndex := idx + 1, name := c.name,
    phone := c.phone, status := Status.ready, errors := [] }

/-- Ready rows for the valid contacts, starting at position idx. -/
def contactRows : List Contact → Nat → List Row
  | [], _ => []
  | c :: cs, idx => mkContactRow idx c :: contactRows cs (idx + 1)

/-- The excluded row built for the parse error at position idx, when the
imported array already holds importedLen rows.  The row number is parsed
from the message when present, else it is importedLen + idx + 1, the
value of importedRows.length + idx + 1 at push time. -/
def mkErrorRow (importedLen idx : Nat) (errMsg : String) : Row :=
  { id := "error-" ++ natStr idx,
    rowIndex :=
      match matchRowRef errMsg.data with
      | some n => n
      | none => importedLen + idx + 1,
    name := "—", phone := "—", status := Status.excluded, errors := [errMsg] }

/-- Excluded rows for the parse errors, starting at position idx.  When
error idx is processed the imported array holds nContacts + idx rows
(each earlier error pushed exactly one row). -/
def errorRows (nContacts : Nat) : List String → Nat → List Row
  | [], _ => []
  | e :: es, idx => mkErrorRow (nContacts + idx) idx e :: errorRows nContacts es (idx + 1)

/-- Insert a row into a list sorted by rowIndex, before the first element
whose rowIndex is not smaller.  Used to model the stable JavaScript sort. -/
def insertByRowIndex (r : Row) : List Row → List Row
  | [] => [r]
  | x :: xs =>
    if x.rowIndex < r.rowIndex then x :: insertByRowIndex r xs else r :: x :: xs

/-- Stable insertion sort by rowIndex.  Array.prototype.sort with the
comparator (a, b) => a.rowIndex - b.rowIndex is required by the ECMAScript
specification to be stable and to sort ascending by rowIndex, which
determines its output uniquely; stable insertion sort computes exactly
that output and is kernel-reducible. -/
def sortByRowIndex : List Row → List Row
  | [] => []
  | r :: rs => insertByRowIndex r (sortByRowIndex rs)

/-- The classifier: valid contacts become ready rows, parse errors become
excluded rows, and the combined list is sorted ascending by rowIndex. -/
def classify (contacts : List Contact) (errs : List String) : List Row :=
  sortByRowIndex (contactRows contacts 0 ++ errorRows contacts.length errs 0)

/-! ## Selection ledger, undo stack and sending state (marketing store) -/

inductive SmsStatus where
  | sent
  | failed
  | pending
deriving DecidableEq

structure SmsResult where
  rowId : String
  name : String
  phone : String
  status : SmsStatus
  sid : Option String
  error : Option String
deriving DecidableEq

/-- UndoSnapshot: the removed rows, the removed ids that were included at
removal time, and the index each removed row occupied in the pre-removal
collection, in the same order as rows. -/
structure UndoSnapshot where
  rows : List Row
  includedIdsSnapshot : Finset String
  positions : List Nat
deriving DecidableEq

structure Toast where
  message : String
  showUndo : Bool
deriving DecidableEq

/-- The marketing store state (the fields touched by the composer core). -/
structure MarketingState where
  rows : List Row
  includedIds : Finset String
  lastRemoved : Option UndoSnapshot
  toast : Option Toast
  isSending : Bool
  sendResults : List SmsResult
  messageDraft : String
  error : Option String
deriving DecidableEq

/-- The initial store state. -/
def initialState : MarketingState :=
  { rows := [], includedIds := ∅, lastRemoved := none, toast := none,
    isSending := false, sendResults := [], messageDraft := "", error := none }

def readyRows (s : MarketingState) : List Row :=
  s.rows.filter (fun r => decide (r.status = Status.ready))

def excludedRows (s : MarketingState) : List Row :=
  s.rows.filter (fun r => decide (r.status = Status.excluded))

/-- getIncludedRows: the ready rows whose id is in the inclusion set. -/
def getIncludedRows (s : MarketingState) : List Row :=
  s.rows.filter (fun r => decide (r.status = Status.ready) && decide (r.id ∈ s.includedIds))

structure Counts where
  imported : Nat
  ready : Nat
  excluded : Nat
  included : Nat
deriving DecidableEq

/-- getCounts: full-collection scans plus the size of the inclusion set. -/
def getCounts (s : MarketingState) : Counts :=
  { imported := s.rows.length, ready := (readyRows s).length,
    excluded := (excludedRows s).length, included := s.includedIds.card }

/-- setImportData: replace the rows, clear inclusion, results, error, undo
snapshot and toast. -/
def setImportData (rows : List Row) (s : MarketingState) : MarketingState :=
  { s with rows := rows, includedIds := ∅, sendResults := [], error := none,
           lastRemoved := none, toast := none }

/-- clearAllData: like setImportData with an empty collection. -/
def clearAllData (s : MarketingState) : MarketingState :=
  { s with rows := [], includedIds := ∅, sendResults := [], error := none,
           lastRemoved := none, toast := none }

/-- includeAllReady: the inclusion set becomes the ids of all ready rows. -/
def includeAllReady (s : MarketingState) : MarketingState :=
  { s with includedIds := ((readyRows s).map (fun r => r.id)).toFinset }

/-- includeNone: empty the inclusion set. -/
def includeNone (s : MarketingState) : MarketingState :=
  { s with includedIds := ∅ }

/-- toggleInclusion: no-op when the row is absent or excluded, otherwise
flip membership of the id in the inclusion set. -/
def toggleInclusion (rowId : String) (s : MarketingState) : MarketingState :=
  match s.rows.find? (fun r => decide (r.id = rowId)) with
  | none => s
  | some row =>
    if row.status = Status.excluded then s
    else if rowId ∈ s.includedIds then
      { s with includedIds := s.includedIds.erase rowId }
    else
      { s with includedIds := insert rowId s.includedIds }

/-- findIndex of the first element satisfying p (JavaScript findIndex,
with none for the value -1). -/
def findIndex (p : Row → Bool) : List Row → Option Nat
  | [] => none
  | r :: rs => if p r then some 0 else (findIndex p rs).map (· + 1)

/-- Insert a row at position n, or at the end when n exceeds the length
(splice insertion semantics). -/
def insertAt : Nat → Row → List Row → List Row
  | _, r, [] => [r]
  | 0, r, l => r :: l
  | n + 1, r, x :: l => x :: insertAt n r l

/-- removeRow: locate the first row with the given id; remove it from the
collection and from the inclusion set; save a one-row undo snapshot with
its original position and its inclusion membership; show the toast. -/
def removeRow (rowId : String) (s : MarketingState) : MarketingState :=
  match findIndex (fun r => decide (r.id = rowId)) s.rows with
  | none => s
  | some idx =>
    match s.rows[idx]? with
    | none => s
    | some row =>
      { s with rows := s.rows.eraseIdx idx,
               includedIds := s.includedIds.erase rowId,
               lastRemoved := some { rows := [row],
                                     includedIdsSnapshot :=
                                       if rowId ∈ s.includedIds then {rowId} else ∅,
                                     positions := [idx] },
               toast := some { message := "Removed 1 recipient", showUndo := true } }

/-- The rows selected by p paired with their index in the collection, in
collection order (the forEach loop of removeSelected). -/
def removedWithPos (p : Row → Bool) : List Row → Nat → List (Row × Nat)
  | [], _ => []
  | r :: rs, i =>
    if p r then (r, i) :: removedWithPos p rs (i + 1) else removedWithPos p rs (i + 1)

/-- removeSelected: no-op when the inclusion set is empty; otherwise
remove every included row in one batch, clear the inclusion set, and save
an undo snapshot holding the removed rows, the inclusion set, and the
original positions. -/
def removeSelected (s : MarketingState) : MarketingState :=
  if s.includedIds = ∅ then s
  else
    let marked := removedWithPos (fun r => decide (r.id ∈ s.includedIds)) s.rows 0
    let newRows := s.rows.filter (fun r => !decide (r.id ∈ s.includedIds))
    let count := (marked.map Prod.fst).length
    { s with rows := newRows,
             includedIds := ∅,
             lastRemoved := some { rows := marked.map Prod.fst,
                                   includedIdsSnapshot := s.includedIds,
                                   positions := marked.map Prod.snd },
             toast := some { message := s!"Removed {count} recipient"
                               ++ (if count ≠ 1 then "s" else ""),
                             showUndo := true } }

/-- The reinsertion loop of undoRemove: insert each snapshot row at
min(originalPosition, currentLength), one at a time, in snapshot order. -/
def undoFold (init : List Row) (pairs : List (Row × Nat)) : List Row :=
  pairs.foldl (fun acc pr => insertAt (min pr.2 acc.length) pr.1 acc) init

/-- undoRemove: no-op without a pending snapshot; otherwise reinsert the
removed rows at their original positions, re-add the snapshot ids to the
inclusion set, and clear the snapshot and the toast. -/
def undoRemove (s : MarketingState) : MarketingState :=
  match s.lastRemoved with
  | none => s
  | some snap =>
    { s with rows := undoFold s.rows (snap.rows.zip snap.positions),
             includedIds := s.includedIds ∪ snap.includedIdsSnapshot,
             lastRemoved := none,
             toast := none }

/-- dismissToast: clear the toast only (the store leaves lastRemoved
untouched here). -/
def dismissToast (s : MarketingState) : MarketingState :=
  { s with toast := none }

/-- The auto-dismiss timer body: clear the toast and the snapshot.  In the
source the clear is guarded by the toast message still being the removal
message; the unguarded version makes every state the guarded timer can
produce reachable. -/
def toastTimeout (s : MarketingState) : MarketingState :=
  { s with toast := none, lastRemoved := none }

def setMessageDraft (message : String) (s : MarketingState) : MarketingState :=
  { s with messageDraft := message }

def setError (e : Option String) (s : MarketingState) : MarketingState :=
  { s with error := e }

def setSending (sending : Bool) (s : MarketingState) : MarketingState :=
  { s with isSending := sending }

def setSendResults (results : List SmsResult) (s : MarketingState) : MarketingState :=
  { s with sendResults := results, isSending := false }

def clearResults (s : MarketingState) : MarketingState :=
  { s with sendResults := [] }

/-! ## Dispatch path (handleBroadcast and the broadcast button) -/

/-- Model of the JavaScript trim: strip leading and trailing whitespace. -/
def jsTrim (s : String) : String :=
  String.mk (((s.data.dropWhile Char.isWhitespace).reverse.dropWhile Char.isWhitespace).reverse)

/-- The request body sent to the dispatch gateway. -/
structure DispatchRequest where
  recipients : List Contact
  message : String
deriving DecidableEq

/-- Outcome of the asynchronous dispatch call: a result list, or a
transport failure. -/
inductive DispatchOutcome where
  | success (results : List SmsResult)
  | networkError
deriving DecidableEq

/-- handleBroadcast: rejected with no state change and no request when no
row is included or the trimmed draft is empty; otherwise set the sending
flag, clear the error, and issue the request.  On success the results are
stored and the sending flag cleared; on a transport failure the error
message is set and the sending flag cleared, with rows and inclusion
untouched. -/
def handleBroadcast (s : MarketingState) (outcome : DispatchOutcome) :
    MarketingState × Option DispatchRequest :=
  let includedRows := getIncludedRows s
  if includedRows.length = 0 ∨ jsTrim s.messageDraft = "" then (s, none)
  else
    let s1 := { s with isSending := true, error := none }
    let req : DispatchRequest :=
      { recipients := includedRows.map (fun r => { name := r.name, phone := r.phone }),
        message := s.messageDraft }
    match outcome with
    | DispatchOutcome.success results =>
      (setSendResults results s1, some req)
    | DispatchOutcome.networkError =>
      (setSending false (setError (some "Network error. Please check your connection.") s1),
       some req)

/-- The isReady flag of the broadcast button. -/
def isReadyFlag (s : MarketingState) : Bool :=
  decide (0 < (getCounts s).included) && decide (0 < (jsTrim s.messageDraft).length)

/-- The dispatch operation as exposed to the user: the broadcast button is
disabled unless isReady holds and no send is in flight, and its click
handler is handleBroadcast. -/
def dispatchClick (s : MarketingState) (outcome : DispatchOutcome) :
    MarketingState × Option DispatchRequest :=
  if isReadyFlag s && !s.isSending then handleBroadcast s outcome else (s, none)

/-! ## Reachable store states -/

/-- States reachable from the initial state through the store operations
and the dispatch path.  setImportData may receive an arbitrary row list,
which covers every classifier output. -/
inductive Reachable : MarketingState → Prop where
  | init : Reachable initialState
  | step_import {s} (rows : List Row) : Reachable s → Reachable (setImportData rows s)
  | step_clear {s} : Reachable s → Reachable (clearAllData s)
  | step_include_all {s} : Reachable s → Reachable (includeAllReady s)
  | step_include_none {s} : Reachable s → Reachable (includeNone s)
  | step_toggle {s} (rowId : String) : Reachable s → Reachable (toggleInclusion rowId s)
  | step_remove {s} (rowId : String) : Reachable s → Reachable (removeRow rowId s)
  | step_remove_selected {s} : Reachable s → Reachable (removeSelected s)
  | step_undo {s} : Reachable s → Reachable (undoRemove s)
  | step_dismiss {s} : Reachable s → Reachable (dismissToast s)
  | step_timer {s} : Reachable s → Reachable (toastTimeout s)
  | step_draft {s} (m : String) : Reachable s → Reachable (setMessageDraft m s)
  | step_error {s} (e : Option String) : Reachable s → Reachable (setError e s)
  | step_sending {s} (b : Bool) : Reachable s → Reachable (setSending b s)
  | step_results {s} (results : List SmsResult) : Reachable s → Reachable (setSendResults results s)
  | step_clear_results {s} : Reachable s → Reachable (clearResults s)
  | step_dispatch {s} (outcome : DispatchOutcome) :
      Reachable s → Reachable (dispatchClick s outcome).1

/-! ## Spec-side weight functions (for the refinement statements) -/

/-- Modelled from the spec: the per-character weight under GSM-7 is 1,
except extended-set characters which count 2. -/
def specGsm7Weight (c : Char) : Nat := if GSM_7_EXTENDED.contains c then 2 else 1

/-- Weight of one character in UTF-16 code units: 1 inside the Basic
Multilingual Plane, 2 beyond it. -/
def utf16Weight (c : Char) : Nat := if c.toNat < 65536 then 1 else 2

/-! ## Concrete states used to instantiate the theorems -/

/-- A small reachable state: import two contacts and one parse error,
include all ready rows, then remove one row. -/
def sampleRemovedState : MarketingState :=
  removeRow "row-0"
    (includeAllReady
      (setImportData
        (classify [{ name := "Ann", phone := "111" }, { name := "Bob", phone := "222" }] ["oops"])
        initialState))

/-- A small state with a non-empty inclusion set. -/
def sampleIncludedState : MarketingState :=
  includeAllReady
    (setImportData
      (classify [{ name := "Ann", phone := "111" }, { name := "Bob", phone := "222" }] [])
      initialState)

/-- A state with a non-empty inclusion set and a non-blank draft. -/
def sampleDraftState : MarketingState :=
  setMessageDraft "hello" sampleIncludedState

/-! ## Ledger invariants -/

/-- Every id in the inclusion set refers to a row that exists in the
collection and is ready (invariant 3 of the ledger). -/
def LedgerInv (s : MarketingState) : Prop :=
  ∀ id ∈ s.includedIds, ∃ r ∈ s.rows, r.id = id ∧ r.status = Status.ready

/-- Auxiliary invariant on a pending undo snapshot: positions match rows
one to one, and every snapshot id has a ready row either among the
snapshot rows or still in the collection. -/
def SnapInv (s : MarketingState) : Prop :=
  ∀ snap, s.lastRemoved = some snap →
    snap.rows.length = snap.positions.length ∧
    ∀ id ∈ snap.includedIdsSnapshot,
      (∃ r ∈ snap.rows, r.id = id ∧ r.status = Status.ready) ∨
      (∃ r ∈ s.rows, r.id = id ∧ r.status = Status.ready)

/-- The inductive invariant carried across all store operations. -/
def StoreInv (s : MarketingState) : Prop := LedgerInv s ∧ SnapInv s

/-! ## Helper lemmas -/

theorem length_ready_add_excluded (l : List Row) :
    (l.filter (fun r => decide (r.status = Status.ready))).length
      + (l.filter (fun r => decide (r.status = Status.excluded))).length = l.length := by
  induction l with
  | nil => rfl
  | cons r rs ih =>
    cases h : r.status <;> simp [List.filter_cons, h] <;> omega

theorem card_includedIds_le_ready (s : MarketingState) (h : LedgerInv s) :
    s.includedIds.card ≤ (readyRows s).length := by
  have hsub : s.includedIds ⊆ ((readyRows s).map (fun r => r.id)).toFinset := by
    intro id hid
    obtain ⟨r, hr, hid2, hst⟩ := h id hid
    refine List.mem_toFinset.mpr (List.mem_map.mpr ⟨r, ?_, hid2⟩)
    exact List.mem_filter.mpr ⟨hr, by simp [hst]⟩
  calc s.includedIds.card ≤ ((readyRows s).map (fun r => r.id)).toFinset.card :=
        Finset.card_le_card hsub
    _ ≤ ((readyRows s).map (fun r => r.id)).length := List.toFinset_card_le _
    _ = (readyRows s).length := List.length_map _ _

theorem insertAt_zero (r : Row) (l : List Row) : insertAt 0 r l = r :: l := by
  cases l <;> rfl

theorem insertAt_succ_cons (n : Nat) (r x : Row) (l : List Row) :
    insertAt (n + 1) r (x :: l) = x :: insertAt n r l := rfl

theorem insertAt_perm (n : Nat) (r : Row) (l : List Row) :
    List.Perm (insertAt n r l) (r :: l) := by
  induction l generalizing n with
  | nil => cases n <;> exact List.Perm.refl _
  | cons x xs ih =>
    cases n with
    | zero => rw [insertAt_zero]
    | succ n =>
      rw [insertAt_succ_cons]
      exact ((ih n).cons x).trans (List.Perm.swap r x xs)

theorem mem_insertAt {a : Row} {n : Nat} {r : Row} {l : List Row} :
    a ∈ insertAt n r l ↔ a = r ∨ a ∈ l :=
  ((insertAt_perm n r l).mem_iff).trans (List.mem_cons)

theorem insertAt_eraseIdx : ∀ (l : List Row) (i : Nat) (row : Row),
    l[i]? = some row → insertAt i row (l.eraseIdx i) = l := by
  intro l
  induction l with
  | nil => intro i row h; simp at h
  | cons x t ih =>
    intro i row h
    cases i with
    | zero =>
      simp at h
      rw [h, List.eraseIdx_cons_zero, insertAt_zero]
    | succ i =>
      simp at h
      rw [List.eraseIdx_cons_succ, insertAt_succ_cons, ih i row h]

theorem findIndex_some_lt {p : Row → Bool} :
    ∀ {l : List Row} {i : Nat}, findIndex p l = some i → i < l.length := by
  intro l
  induction l with
  | nil => intro i h; simp [findIndex] at h
  | cons r rs ih =>
    intro i h
    by_cases hp : p r
    · simp [findIndex, hp] at h
      simp [List.length_cons]
      omega
    · simp [findIndex, hp] at h
      obtain ⟨j, hj, hij⟩ := h
      have := ih hj
      simp [List.length_cons]
      omega

theorem findIndex_some_get {p : Row → Bool} :
    ∀ {l : List Row} {i : Nat} {row : Row},
    findIndex p l = some i → l[i]? = some row → p row = true := by
  intro l
  induction l with
  | nil => intro i row h; simp [findIndex] at h
  | cons r rs ih =>
    intro i row h hg
    by_cases hp : p r
    · simp [findIndex, hp] at h
      subst h
      simp at hg
      exact hg ▸ hp
    · simp [findIndex, hp] at h
      obtain ⟨j, hj, hij⟩ := h
      subst hij
      simp at hg
      exact ih hj hg

theorem findIndex_isSome_of_mem {p : Row → Bool} {a : Row} :
    ∀ {l : List Row}, a ∈ l → p a = true → (findIndex p l).isSome := by
  intro l
  induction l with
  | nil => intro h; simp at h
  | cons r rs ih =>
    intro hmem hp
    by_cases hpr : p r
    · simp [findIndex, hpr]
    · rcases List.mem_cons.mp hmem with h | h
      · subst h; exact absurd hp hpr
      · have := ih h hp
        rcases Option.isSome_iff_exists.mp this with ⟨j, hj⟩
        simp [findIndex, hpr, hj]

theorem eraseIdx_cons_perm {l : List Row} {i : Nat} {row : Row}
    (h : l[i]? = some row) : List.Perm l (row :: l.eraseIdx i) := by
  conv_lhs => rw [← insertAt_eraseIdx l i row h]
  exact insertAt_perm _ _ _

theorem zip_map_fst_snd : ∀ (l : List (Row × Nat)),
    (l.map Prod.fst).zip (l.map Prod.snd) = l := by
  intro l
  induction l with
  | nil => rfl
  | cons pr rest ih => simp [ih]

theorem removedWithPos_shift (p : Row → Bool) :
    ∀ (l : List Row) (i : Nat),
    removedWithPos p l (i + 1) = (removedWithPos p l i).map (fun pr => (pr.1, pr.2 + 1)) := by
  intro l
  induction l with
  | nil => intro i; rfl
  | cons r rs ih =>
    intro i
    by_cases hp : p r <;> simp [removedWithPos, hp, ih (i + 1), ih i]

theorem removedWithPos_map_fst (p : Row → Bool) :
    ∀ (l : List Row) (i : Nat),
    (removedWithPos p l i).map Prod.fst = l.filter p := by
  intro l
  induction l with
  | nil => intro i; rfl
  | cons r rs ih =>
    intro i
    by_cases hp : p r <;> simp [removedWithPos, hp, List.filter_cons, ih]

theorem undoFold_nil (init : List Row) : undoFold init [] = init := rfl

theorem undoFold_cons (init : List Row) (pr : Row × Nat) (pairs : List (Row × Nat)) :
    undoFold init (pr :: pairs) = undoFold (insertAt (min pr.2 init.length) pr.1 init) pairs := rfl

theorem undoFold_shift (x : Row) :
    ∀ (pairs : List (Row × Nat)) (l : List Row),
    undoFold (x :: l) (pairs.map (fun pr => (pr.1, pr.2 + 1))) = x :: undoFold l pairs := by
  intro pairs
  induction pairs with
  | nil => intro l; rfl
  | cons pr rest ih =>
    intro l
    rw [List.map_cons, undoFold_cons, undoFold_cons]
    have hmin : min (pr.2 + 1) (x :: l).length = min pr.2 l.length + 1 := by
      simp [List.length_cons]
      omega
    rw [hmin, insertAt_succ_cons, ih]

theorem undoFold_restore (p : Row → Bool) :
    ∀ (l : List Row),
    undoFold (l.filter (fun r => !p r)) (removedWithPos p l 0) = l := by
  intro l
  induction l with
  | nil => rfl
  | cons x t ih =>
    by_cases hp : p x
    · have h0 : removedWithPos p (x :: t) 0 = (x, 0) :: removedWithPos p t 1 := by
        simp [removedWithPos, hp]
      have hf : (x :: t).filter (fun r => !p r) = t.filter (fun r => !p r) := by
        simp [List.filter_cons, hp]
      rw [h0, hf, undoFold_cons]
      have : insertAt (min 0 (t.filter (fun r => !p r)).length) x (t.filter (fun r => !p r))
          = x :: t.filter (fun r => !p r) := by
        rw [Nat.zero_min, insertAt_zero]
      rw [this, removedWithPos_shift, undoFold_shift, ih]
    · have h0 : removedWithPos p (x :: t) 0
          = (removedWithPos p t 0).map (fun pr => (pr.1, pr.2 + 1)) := by
        simp [removedWithPos, hp, removedWithPos_shift]
      have hf : (x :: t).filter (fun r => !p r) = x :: t.filter (fun r => !p r) := by
        simp [List.filter_cons, hp]
      rw [h0, hf, undoFold_shift, ih]

theorem undoFold_mem_init {a : Row} :
    ∀ (pairs : List (Row × Nat)) (init : List Row),
    a ∈ init → a ∈ undoFold init pairs := by
  intro pairs
  induction pairs with
  | nil => intro init h; exact h
  | cons pr rest ih =>
    intro init h
    rw [undoFold_cons]
    exact ih _ (mem_insertAt.mpr (Or.inr h))

theorem undoFold_mem_fst {pr : Row × Nat} :
    ∀ (pairs : List (Row × Nat)) (init : List Row),
    pr ∈ pairs → pr.1 ∈ undoFold init pairs := by
  intro pairs
  induction pairs with
  | nil => intro init h; simp at h
  | cons hd rest ih =>
    intro init h
    rcases List.mem_cons.mp h with h | h
    · subst h
      rw [undoFold_cons]
      exact undoFold_mem_init _ _ (mem_insertAt.mpr (Or.inl rfl))
    · rw [undoFold_cons]
      exact ih _ h

/-! ## Invariant preservation, operation by operation -/

theorem storeInv_of_fields {s t : MarketingState}
    (h1 : t.rows = s.rows) (h2 : t.includedIds = s.includedIds)
    (h3 : t.lastRemoved = s.lastRemoved) (h : StoreInv s) : StoreInv t := by
  obtain ⟨hL, hS⟩ := h
  constructor
  · intro id hid
    rw [h1]
    exact hL id (h2 ▸ hid)
  · intro snap hsnap
    rw [h3] at hsnap
    obtain ⟨hlen, hids⟩ := hS snap hsnap
    refine ⟨hlen, fun id hid => ?_⟩
    rcases hids id hid with h | h
    · exact Or.inl h
    · exact Or.inr (by rw [h1]; exact h)

theorem storeInv_of_cleared {t : MarketingState} (h2 : t.includedIds = ∅)
    (h3 : t.lastRemoved = none) : StoreInv t := by
  constructor
  · intro id hid
    rw [h2] at hid
    exact absurd hid (Finset.not_mem_empty id)
  · intro snap hsnap
    rw [h3] at hsnap
    exact Option.noConfusion hsnap

theorem includeAllReady_inv (s : MarketingState) (h : StoreInv s) :
    StoreInv (includeAllReady s) := by
  refine ⟨?_, h.2⟩
  intro id hid
  have hid2 : id ∈ ((readyRows s).map (fun r => r.id)).toFinset := hid
  obtain ⟨r, hr, hrid⟩ := List.mem_map.mp (List.mem_toFinset.mp hid2)
  obtain ⟨hrmem, hrst⟩ := List.mem_filter.mp hr
  exact ⟨r, hrmem, hrid, of_decide_eq_true hrst⟩

theorem includeNone_inv (s : MarketingState) (h : StoreInv s) :
    StoreInv (includeNone s) := by
  refine ⟨?_, h.2⟩
  intro id hid
  exact absurd hid (Finset.not_mem_empty id)

theorem toggleInclusion_inv (rowId : String) (s : MarketingState) (h : StoreInv s) :
    StoreInv (toggleInclusion rowId s) := by
  rcases hfind : s.rows.find? (fun r => decide (r.id = rowId)) with _ | row
  · simp only [toggleInclusion, hfind]
    exact h
  · simp only [toggleInclusion, hfind]
    by_cases hex : row.status = Status.excluded
    · rw [if_pos hex]
      exact h
    · rw [if_neg hex]
      by_cases hmem : rowId ∈ s.includedIds
      · rw [if_pos hmem]
        refine ⟨?_, h.2⟩
        intro id hid
        exact h.1 id (Finset.mem_erase.mp hid).2
      · rw [if_neg hmem]
        refine ⟨?_, h.2⟩
        intro id hid
        rcases Finset.mem_insert.mp hid with heq | hold
        · subst heq
          have hp := List.find?_some hfind
          have hrid : row.id = id := by simpa using hp
          have hready : row.status = Status.ready := by
            cases hst : row.status
            · rfl
            · exact absurd hst hex
          exact ⟨row, List.mem_of_find?_eq_some hfind, hrid, hready⟩
        · exact h.1 id hold

theorem removeRow_inv (rowId : String) (s : MarketingState) (h : StoreInv s) :
    StoreInv (removeRow rowId s) := by
  rcases hfind : findIndex (fun r => decide (r.id = rowId)) s.rows with _ | idx
  · simp only [removeRow, hfind]
    exact h
  · rcases hget : s.rows[idx]? with _ | row
    · simp only [removeRow, hfind, hget]
      exact h
    · simp only [removeRow, hfind, hget]
      have hrowid : row.id = rowId := by
        have := findIndex_some_get hfind hget
        simpa using this
      have hperm := eraseIdx_cons_perm hget
      constructor
      · intro id hid
        obtain ⟨hne, hidS⟩ := Finset.mem_erase.mp hid
        obtain ⟨r, hr, hrid, hrst⟩ := h.1 id hidS
        rcases List.mem_cons.mp (hperm.mem_iff.mp hr) with heq | hmem2
        · exact absurd (by rw [← hrid, heq, hrowid]) hne.symm
        · exact ⟨r, hmem2, hrid, hrst⟩
      · intro snap hsnap
        injection hsnap with hsnap
        subst hsnap
        refine ⟨rfl, fun id hid => ?_⟩
        by_cases hmem : rowId ∈ s.includedIds
        · rw [if_pos hmem] at hid
          have hidr : id = rowId := Finset.mem_singleton.mp hid
          subst hidr
          obtain ⟨r, hr, hrid, hrst⟩ := h.1 id hmem
          rcases List.mem_cons.mp (hperm.mem_iff.mp hr) with heq | hmem2
          · exact Or.inl ⟨r, by simp [heq], hrid, hrst⟩
          · exact Or.inr ⟨r, hmem2, hrid, hrst⟩
        · rw [if_neg hmem] at hid
          exact absurd hid (Finset.not_mem_empty id)

theorem removeSelected_inv (s : MarketingState) (h : StoreInv s) :
    StoreInv (removeSelected s) := by
  by_cases hemp : s.includedIds = ∅
  · simp only [removeSelected, if_pos hemp]
    exact h
  · simp only [removeSelected, if_neg hemp]
    constructor
    · intro id hid
      exact absurd hid (Finset.not_mem_empty id)
    · intro snap hsnap
      injection hsnap with hsnap
      subst hsnap
      refine ⟨by simp, fun id hid => ?_⟩
      obtain ⟨r, hr, hrid, hrst⟩ := h.1 id hid
      refine Or.inl ⟨r, ?_, hrid, hrst⟩
      rw [removedWithPos_map_fst]
      exact List.mem_filter.mpr ⟨hr, by simp [hrid, hid]⟩

theorem undoRemove_inv (s : MarketingState) (h : StoreInv s) :
    StoreInv (undoRemove s) := by
  rcases hsnap : s.lastRemoved with _ | snap
  · simp only [undoRemove, hsnap]
    exact h
  · simp only [undoRemove, hsnap]
    obtain ⟨hlen, hids⟩ := h.2 snap hsnap
    constructor
    · intro id hid
      rcases Finset.mem_union.mp hid with hS | hsnapid
      · obtain ⟨r, hr, hrid, hrst⟩ := h.1 id hS
        exact ⟨r, undoFold_mem_init _ _ hr, hrid, hrst⟩
      · rcases hids id hsnapid with ⟨r, hr, hrid, hrst⟩ | ⟨r, hr, hrid, hrst⟩
        · have hmfz : (snap.rows.zip snap.positions).map Prod.fst = snap.rows :=
            List.map_fst_zip _ _ (le_of_eq hlen)
          have hr2 : r ∈ (snap.rows.zip snap.positions).map Prod.fst := by
            rw [hmfz]; exact hr
          obtain ⟨pr, hpr, hpr1⟩ := List.mem_map.mp hr2
          refine ⟨r, ?_, hrid, hrst⟩
          rw [← hpr1]
          exact undoFold_mem_fst _ _ hpr
        · exact ⟨r, undoFold_mem_init _ _ hr, hrid, hrst⟩
    · intro snap2 h2
      exact Option.noConfusion h2

theorem handleBroadcast_reject (s : MarketingState) (o : DispatchOutcome)
    (hg : (getIncludedRows s).length = 0 ∨ jsTrim s.messageDraft = "") :
    handleBroadcast s o = (s, none) :=
  if_pos hg

theorem handleBroadcast_success (s : MarketingState) (results : List SmsResult)
    (hg : ¬((getIncludedRows s).length = 0 ∨ jsTrim s.messageDraft = "")) :
    handleBroadcast s (DispatchOutcome.success results)
      = (setSendResults results { s with isSending := true, error := none },
         some { recipients := (getIncludedRows s).map (fun r => { name := r.name, phone := r.phone }),
                message := s.messageDraft }) :=
  if_neg hg

theorem handleBroadcast_network (s : MarketingState)
    (hg : ¬((getIncludedRows s).length = 0 ∨ jsTrim s.messageDraft = "")) :
    handleBroadcast s DispatchOutcome.networkError
      = (setSending false (setError (some "Network error. Please check your connection.")
            { s with isSending := true, error := none }),
         some { recipients := (getIncludedRows s).map (fun r => { name := r.name, phone := r.phone }),
                message := s.messageDraft }) :=
  if_neg hg

theorem handleBroadcast_fields (s : MarketingState) (o : DispatchOutcome) :
    (handleBroadcast s o).1.rows = s.rows
    ∧ (handleBroadcast s o).1.includedIds = s.includedIds
    ∧ (handleBroadcast s o).1.lastRemoved = s.lastRemoved := by
  by_cases hg : (getIncludedRows s).length = 0 ∨ jsTrim s.messageDraft = ""
  · rw [handleBroadcast_reject s o hg]
    exact ⟨rfl, rfl, rfl⟩
  · cases o with
    | success results =>
      rw [handleBroadcast_success s results hg]
      exact ⟨rfl, rfl, rfl⟩
    | networkError =>
      rw [handleBroadcast_network s hg]
      exact ⟨rfl, rfl, rfl⟩

theorem dispatchClick_fields (s : MarketingState) (o : DispatchOutcome) :
    (dispatchClick s o).1.rows = s.rows
    ∧ (dispatchClick s o).1.includedIds = s.includedIds
    ∧ (dispatchClick s o).1.lastRemoved = s.lastRemoved := by
  unfold dispatchClick
  split
  · exact handleBroadcast_fields s o
  · exact ⟨rfl, rfl, rfl⟩

/-- The inductive invariant holds in every reachable store state. -/
theorem storeInv_reachable {s : MarketingState} (h : Reachable s) : StoreInv s := by
  induction h with
  | init => exact storeInv_of_cleared rfl rfl
  | step_import rows _ _ => exact storeInv_of_cleared rfl rfl
  | step_clear _ _ => exact storeInv_of_cleared rfl rfl
  | step_include_all _ ih => exact includeAllReady_inv _ ih
  | step_include_none _ ih => exact includeNone_inv _ ih
  | step_toggle rowId _ ih => exact toggleInclusion_inv rowId _ ih
  | step_remove rowId _ ih => exact removeRow_inv rowId _ ih
  | step_remove_selected _ ih => exact removeSelected_inv _ ih
  | step_undo _ ih => exact undoRemove_inv _ ih
  | step_dismiss _ ih => exact storeInv_of_fields rfl rfl rfl ih
  | step_timer _ ih =>
    refine ⟨ih.1, fun snap h2 => ?_⟩
    exact Option.noConfusion h2
  | step_draft m _ ih => exact storeInv_of_fields rfl rfl rfl ih
  | step_error e _ ih => exact storeInv_of_fields rfl rfl rfl ih
  | step_sending b _ ih => exact storeInv_of_fields rfl rfl rfl ih
  | step_results results _ ih => exact storeInv_of_fields rfl rfl rfl ih
  | step_clear_results _ ih => exact storeInv_of_fields rfl rfl rfl ih
  | step_dispatch outcome _ ih =>
    obtain ⟨h1, h2, h3⟩ := dispatchClick_fields _ outcome
    exact storeInv_of_fields h1 h2 h3 ih

theorem undoRemove_of_none {t : MarketingState} (h : t.lastRemoved = none) :
    undoRemove t = t := by
  simp only [undoRemove, h]

/-! ## Claim C1 -/

/-- Claim C1: in every reachable ledger state (hence after every ledger
operation) the three count invariants hold: imported = ready + excluded,
included ≤ ready, and every id in the inclusion set refers to an existing
ready row. -/
theorem spec_c1_ledger_invariants (s : MarketingState) (h : Reachable s) :
    (getCounts s).imported = (getCounts s).ready + (getCounts s).excluded
    ∧ (getCounts s).included ≤ (getCounts s).ready
    ∧ ∀ id ∈ s.includedIds, ∃ r ∈ s.rows, r.id = id ∧ r.status = Status.ready := by
  obtain ⟨hL, _⟩ := storeInv_reachable h
  refine ⟨?_, ?_, hL⟩
  · exact (length_ready_add_excluded s.rows).symm
  · exact card_includedIds_le_ready s hL

/-- Witness for C1 at a concrete reachable state. -/
theorem spec_c1_witness :
    (getCounts sampleRemovedState).imported
        = (getCounts sampleRemovedState).ready + (getCounts sampleRemovedState).excluded
    ∧ (getCounts sampleRemovedState).included ≤ (getCounts sampleRemovedState).ready
    ∧ ∀ id ∈ sampleRemovedState.includedIds,
        ∃ r ∈ sampleRemovedState.rows, r.id = id ∧ r.status = Status.ready :=
  spec_c1_ledger_invariants sampleRemovedState
    (Reachable.step_remove "row-0"
      (Reachable.step_include_all
        (Reachable.step_import _ Reachable.init)))

/-! ## Claim C2 -/

/-- Claim C2: removing rows (a removeRow of a present id, or a
removeSelected with non-empty inclusion) immediately followed by
undoRemove restores the rows list and the inclusion set exactly, and a
second undoRemove with no intervening removal is a no-op. -/
theorem spec_c2_undo_round_trip (s : MarketingState) (rowId : String) :
    ((∃ r ∈ s.rows, r.id = rowId) →
      (undoRemove (removeRow rowId s)).rows = s.rows
      ∧ (undoRemove (removeRow rowId s)).includedIds = s.includedIds
      ∧ undoRemove (undoRemove (removeRow rowId s)) = undoRemove (removeRow rowId s))
    ∧ (s.includedIds ≠ ∅ →
      (undoRemove (removeSelected s)).rows = s.rows
      ∧ (undoRemove (removeSelected s)).includedIds = s.includedIds
      ∧ undoRemove (undoRemove (removeSelected s)) = undoRemove (removeSelected s)) := by
  constructor
  · rintro ⟨a, ha, haid⟩
    have hfs : (findIndex (fun r => decide (r.id = rowId)) s.rows).isSome :=
      findIndex_isSome_of_mem ha (by simp [haid])
    rcases hfind : findIndex (fun r => decide (r.id = rowId)) s.rows with _ | idx
    · rw [hfind] at hfs
      simp at hfs
    · have hlt : idx < s.rows.length := findIndex_some_lt hfind
      rcases hget : s.rows[idx]? with _ | row
      · rw [List.getElem?_eq_none_iff] at hget
        omega
      · simp only [removeRow, hfind, hget]
        simp only [undoRemove]
        have hrows : undoFold (s.rows.eraseIdx idx) ([row].zip [idx]) = s.rows := by
          show undoFold (s.rows.eraseIdx idx) [(row, idx)] = s.rows
          rw [undoFold_cons, undoFold_nil]
          have hlen : (s.rows.eraseIdx idx).length = s.rows.length - 1 := by
            rw [List.length_eraseIdx]
            simp [hlt]
          have hmin : min idx (s.rows.eraseIdx idx).length = idx := by
            rw [hlen]
            omega
          rw [hmin]
          exact insertAt_eraseIdx s.rows idx row hget
        refine ⟨hrows, ?_, trivial⟩
        by_cases hmem : rowId ∈ s.includedIds
        · rw [if_pos hmem, Finset.union_comm, ← Finset.insert_eq, Finset.insert_erase hmem]
        · rw [if_neg hmem, Finset.union_empty, Finset.erase_eq_of_not_mem hmem]
  · intro hne
    simp only [removeSelected, if_neg hne]
    simp only [undoRemove]
    refine ⟨?_, Finset.empty_union _, trivial⟩
    rw [zip_map_fst_snd]
    exact undoFold_restore _ s.rows

/-- Witness for C2 at a concrete state: a present id for removeRow, a
non-empty inclusion set for removeSelected. -/
theorem spec_c2_witness :
    (undoRemove (removeRow "row-0" sampleIncludedState)).rows = sampleIncludedState.rows
    ∧ (undoRemove (removeSelected sampleIncludedState)).includedIds
        = sampleIncludedState.includedIds :=
  ⟨((spec_c2_undo_round_trip sampleIncludedState "row-0").1 (by decide)).1,
   ((spec_c2_undo_round_trip sampleIncludedState "row-0").2 (by decide)).2.1⟩

/-! ## Claim C3 -/

/-- Claim C3 states that dismissToast clears the pending undo snapshot
exactly as the undo path does.  In the store dismissToast clears only the
toast: at the concrete reachable state below a snapshot is pending, after
dismissToast it is still pending, while undoRemove does clear it. -/
theorem spec_c3_dismiss_keeps_snapshot :
    sampleRemovedState.lastRemoved ≠ none
    ∧ (dismissToast sampleRemovedState).lastRemoved = sampleRemovedState.lastRemoved
    ∧ (dismissToast sampleRemovedState).lastRemoved ≠ none
    ∧ (undoRemove sampleRemovedState).lastRemoved = none := by
  refine ⟨by decide, rfl, by decide, by decide⟩

/-! ## Claim C4 -/

/-- Claim C4: the segmenter meets the test vectors: the empty message has
0 segments for every recipient count; 160 ASCII letters give 1 GSM-7
segment; 161 give 2; a single emoji gives UCS-2 and 1 segment; 67 letters
plus an emoji give UCS-2 for the whole message. -/
theorem spec_c4_segment_vectors :
    (∀ n : Nat, totalSegments "" n = 0)
    ∧ calculateSegments (String.mk (List.replicate 160 'a'))
        = { segments := 1, encoding := Encoding.gsm7, charCount := 160 }
    ∧ (calculateSegments (String.mk (List.replicate 161 'a'))).segments = 2
    ∧ (calculateSegments (String.mk [Char.ofNat 128512])).encoding = Encoding.ucs2
    ∧ (calculateSegments (String.mk [Char.ofNat 128512])).segments = 1
    ∧ (calculateSegments (String.mk (List.replicate 67 'a' ++ [Char.ofNat 128512]))).encoding
        = Encoding.ucs2 := by
  refine ⟨?_, by decide, by decide, by decide, by decide, by decide⟩
  intro n
  have h : (calculateSegments "").segments = 0 := by decide
  simp [totalSegments, h]

/-- Witness for C4 at a concrete recipient count. -/
theorem spec_c4_witness : totalSegments "" 3 = 0 :=
  spec_c4_segment_vectors.1 3

/-! ## Claim C5 -/

theorem foldl_add_weight (w : Char → Nat) :
    ∀ (l : List Char) (a : Nat), l.foldl (fun n c => n + w c) a = a + (l.map w).sum := by
  intro l
  induction l with
  | nil => intro a; simp
  | cons c cs ih =>
    intro a
    rw [List.foldl_cons, ih, List.map_cons, List.sum_cons]
    omega

theorem getGsm7CharCount_eq_sum (m : String) :
    getGsm7CharCount m = (m.data.map specGsm7Weight).sum := by
  have h := foldl_add_weight specGsm7Weight m.data 0
  simpa [getGsm7CharCount, specGsm7Weight] using h

theorem utf16Length_eq_sum (m : String) :
    utf16Length m = (m.data.map utf16Weight).sum := by
  have h := foldl_add_weight utf16Weight m.data 0
  simpa [utf16Length, utf16Weight] using h

theorem calculateSegments_gsm (m : String) (hne : ¬ m.data.length = 0)
    (hg : isGsm7Encodable m = true) :
    calculateSegments m
      = { segments := if getGsm7CharCount m ≤ 160 then 1 else (getGsm7CharCount m + 152) / 153,
          encoding := Encoding.gsm7, charCount := getGsm7CharCount m } := by
  unfold calculateSegments
  rw [if_neg hne, if_pos hg]

theorem calculateSegments_ucs (m : String) (hne : ¬ m.data.length = 0)
    (hg : isGsm7Encodable m = false) :
    calculateSegments m
      = { segments := if utf16Length m ≤ 70 then 1 else (utf16Length m + 66) / 67,
          encoding := Encoding.ucs2, charCount := utf16Length m } := by
  unfold calculateSegments
  rw [if_neg hne, if_neg (by simp [hg])]

/-- Claim C5 as stated is false on the code: it asserts that under UCS-2
every character weighs exactly 1, so that k characters with k ≤ 70 give 1
segment.  The segmenter counts UTF-16 code units, and a message of 36
emoji characters (36 characters, 72 code units) yields 2 segments. -/
theorem spec_c5_counterexample :
    ¬ (∀ m : String, m.data ≠ [] →
        (calculateSegments m).encoding = Encoding.ucs2 →
        (calculateSegments m).segments
          = if m.data.length ≤ 70 then 1 else (m.data.length + 66) / 67) := by
  intro h
  have h36 := h (String.mk (List.replicate 36 (Char.ofNat 128512))) (by decide) (by decide)
  revert h36
  decide

/-- Claim C5, amended: the GSM-7 weight is 1 per character with extended
characters counting 2; the UCS-2 weight is 1 per UTF-16 code unit
(characters beyond the Basic Multilingual Plane count 2), and the segment
counts follow the 160/153 and 70/67 limits on those weighted sums. -/
theorem spec_c5_weights (m : String) (h : m.data ≠ []) :
    ((calculateSegments m).encoding = Encoding.gsm7 →
      (calculateSegments m).charCount = (m.data.map specGsm7Weight).sum
      ∧ (calculateSegments m).segments
          = (if (m.data.map specGsm7Weight).sum ≤ 160 then 1
             else ((m.data.map specGsm7Weight).sum + 152) / 153))
    ∧ ((calculateSegments m).encoding = Encoding.ucs2 →
      (calculateSegments m).charCount = (m.data.map utf16Weight).sum
      ∧ (calculateSegments m).segments
          = (if (m.data.map utf16Weight).sum ≤ 70 then 1
             else ((m.data.map utf16Weight).sum + 66) / 67)) := by
  have hne : ¬ m.data.length = 0 := fun h0 => h (List.length_eq_zero.mp h0)
  by_cases hg : isGsm7Encodable m
  · rw [calculateSegments_gsm m hne hg]
    constructor
    · intro _
      refine ⟨getGsm7CharCount_eq_sum m, ?_⟩
      show (if getGsm7CharCount m ≤ 160 then 1 else (getGsm7CharCount m + 152) / 153) = _
      rw [getGsm7CharCount_eq_sum]
    · intro hcontra
      exact Encoding.noConfusion hcontra
  · have hg2 : isGsm7Encodable m = false := by simpa using hg
    rw [calculateSegments_ucs m hne hg2]
    constructor
    · intro hcontra
      exact Encoding.noConfusion hcontra
    · intro _
      refine ⟨utf16Length_eq_sum m, ?_⟩
      show (if utf16Length m ≤ 70 then 1 else (utf16Length m + 66) / 67) = _
      rw [utf16Length_eq_sum]

/-- Witness for C5 at concrete messages for both encodings. -/
theorem spec_c5_witness :
    ("ab".data ≠ [] ∧ (calculateSegments "ab").charCount = ("ab".data.map specGsm7Weight).sum)
    ∧ ((calculateSegments (String.mk [Char.ofNat 128512])).charCount
        = ((String.mk [Char.ofNat 128512]).data.map utf16Weight).sum) :=
  ⟨⟨by decide, ((spec_c5_weights "ab" (by decide)).1 (by decide)).1⟩,
   ((spec_c5_weights (String.mk [Char.ofNat 128512]) (by decide)).2 (by decide)).1⟩

/-! ## Claim C6 -/

theorem getIncludedRows_of_empty {s : MarketingState} (h : s.includedIds = ∅) :
    getIncludedRows s = [] := by
  unfold getIncludedRows
  rw [h]
  simp

/-- Claim C6: when the inclusion set is empty or the trimmed draft is
empty, dispatch is rejected: the state is unchanged (in particular the
sending flag is not set) and no request payload is produced. -/
theorem spec_c6_dispatch_rejected (s : MarketingState) (outcome : DispatchOutcome)
    (h : s.includedIds = ∅ ∨ jsTrim s.messageDraft = "") :
    handleBroadcast s outcome = (s, none) := by
  apply handleBroadcast_reject
  rcases h with h | h
  · left
    rw [getIncludedRows_of_empty h]
    rfl
  · right
    exact h

/-- Witness for C6: the initial state with a draft but nothing included. -/
theorem spec_c6_witness :
    handleBroadcast (setMessageDraft "hello" initialState) DispatchOutcome.networkError
      = (setMessageDraft "hello" initialState, none) :=
  spec_c6_dispatch_rejected _ _ (Or.inl rfl)

/-! ## Claim C7 -/

/-- Claim C7: while a send is in flight (isSending), a further dispatch is
a no-op: the broadcast button is disabled whenever isSending holds, so
the click produces no state change and no request. -/
theorem spec_c7_no_dispatch_while_sending (s : MarketingState) (outcome : DispatchOutcome)
    (h : s.isSending = true) :
    dispatchClick s outcome = (s, none) := by
  unfold dispatchClick
  rw [h]
  simp

/-- Witness for C7 at a concrete sending state. -/
theorem spec_c7_witness :
    dispatchClick (setSending true initialState) (DispatchOutcome.success [])
      = (setSending true initialState, none) :=
  spec_c7_no_dispatch_while_sending _ _ rfl

/-! ## Claim C8 -/

/-- Claim C8: a dispatch that fails with a transport error reverts to the
pre-call state with a single user-facing error string: rows, inclusion,
results and draft are exactly as before the call, and the sending flag is
cleared. -/
theorem spec_c8_transport_error_reverts (s : MarketingState)
    (h : ¬((getIncludedRows s).length = 0 ∨ jsTrim s.messageDraft = "")) :
    ((handleBroadcast s DispatchOutcome.networkError).2).isSome
    ∧ (handleBroadcast s DispatchOutcome.networkError).1.rows = s.rows
    ∧ (handleBroadcast s DispatchOutcome.networkError).1.includedIds = s.includedIds
    ∧ (handleBroadcast s DispatchOutcome.networkError).1.sendResults = s.sendResults
    ∧ (handleBroadcast s DispatchOutcome.networkError).1.messageDraft = s.messageDraft
    ∧ (handleBroadcast s DispatchOutcome.networkError).1.isSending = false
    ∧ (handleBroadcast s DispatchOutcome.networkError).1.error
        = some "Network error. Please check your connection." := by
  rw [handleBroadcast_network s h]
  exact ⟨rfl, rfl, rfl, rfl, rfl, rfl, rfl⟩

/-- Witness for C8 at a state with an included row and a non-blank
draft. -/
theorem spec_c8_witness :
    ((handleBroadcast sampleDraftState DispatchOutcome.networkError).2).isSome
    ∧ (handleBroadcast sampleDraftState DispatchOutcome.networkError).1.rows
        = sampleDraftState.rows
    ∧ (handleBroadcast sampleDraftState DispatchOutcome.networkError).1.includedIds
        = sampleDraftState.includedIds
    ∧ (handleBroadcast sampleDraftState DispatchOutcome.networkError).1.sendResults
        = sampleDraftState.sendResults
    ∧ (handleBroadcast sampleDraftState DispatchOutcome.networkError).1.messageDraft
        = sampleDraftState.messageDraft
    ∧ (handleBroadcast sampleDraftState DispatchOutcome.networkError).1.isSending = false
    ∧ (handleBroadcast sampleDraftState DispatchOutcome.networkError).1.error
        = some "Network error. Please check your connection." :=
  spec_c8_transport_error_reverts sampleDraftState (by decide)

/-! ## Sorting lemmas for the classifier -/

theorem insertByRowIndex_perm (r : Row) :
    ∀ (l : List Row), List.Perm (insertByRowIndex r l) (r :: l) := by
  intro l
  induction l with
  | nil => exact List.Perm.refl _
  | cons x xs ih =>
    by_cases hlt : x.rowIndex < r.rowIndex
    · simp only [insertByRowIndex, if_pos hlt]
      exact (ih.cons x).trans (List.Perm.swap r x xs)
    · simp only [insertByRowIndex, if_neg hlt]
      exact List.Perm.refl _

theorem sortByRowIndex_perm : ∀ (l : List Row), List.Perm (sortByRowIndex l) l := by
  intro l
  induction l with
  | nil => exact List.Perm.refl _
  | cons r rs ih =>
    exact (insertByRowIndex_perm r (sortByRowIndex rs)).trans (ih.cons r)

theorem mem_insertByRowIndex {a r : Row} {l : List Row} :
    a ∈ insertByRowIndex r l ↔ a = r ∨ a ∈ l :=
  ((insertByRowIndex_perm r l).mem_iff).trans List.mem_cons

theorem pairwise_insertByRowIndex (r : Row) :
    ∀ {l : List Row}, List.Pairwise (fun a b => a.rowIndex ≤ b.rowIndex) l →
    List.Pairwise (fun a b => a.rowIndex ≤ b.rowIndex) (insertByRowIndex r l) := by
  intro l
  induction l with
  | nil => intro _; simp [insertByRowIndex]
  | cons x xs ih =>
    intro h
    obtain ⟨hx, hxs⟩ := List.pairwise_cons.mp h
    by_cases hlt : x.rowIndex < r.rowIndex
    · simp only [insertByRowIndex, if_pos hlt]
      refine List.pairwise_cons.mpr ⟨?_, ih hxs⟩
      intro b hb
      rcases mem_insertByRowIndex.mp hb with hb | hb
      · subst hb
        omega
      · exact hx b hb
    · simp only [insertByRowIndex, if_neg hlt]
      refine List.pairwise_cons.mpr ⟨?_, h⟩
      intro b hb
      rcases List.mem_cons.mp hb with hb | hb
      · subst hb
        omega
      · have := hx b hb
        omega

theorem sortByRowIndex_sorted :
    ∀ (l : List Row), List.Pairwise (fun a b => a.rowIndex ≤ b.rowIndex) (sortByRowIndex l) := by
  intro l
  induction l with
  | nil => simp [sortByRowIndex]
  | cons r rs ih => exact pairwise_insertByRowIndex r ih

theorem length_contactRows : ∀ (cs : List Contact) (i : Nat),
    (contactRows cs i).length = cs.length := by
  intro cs
  induction cs with
  | nil => intro i; rfl
  | cons c rest ih => intro i; simp [contactRows, ih]

theorem length_errorRows (n : Nat) : ∀ (es : List String) (i : Nat),
    (errorRows n es i).length = es.length := by
  intro es
  induction es with
  | nil => intro i; rfl
  | cons e rest ih => intro i; simp [errorRows, ih]

theorem contactRow_mem : ∀ (cs : List Contact) (start idx : Nat) (c : Contact),
    cs[idx]? = some c → mkContactRow (start + idx) c ∈ contactRows cs start := by
  intro cs
  induction cs with
  | nil =>
    intro start idx c h
    simp at h
  | cons x xs ih =>
    intro start idx c h
    cases idx with
    | zero =>
      simp at h
      subst h
      simp [contactRows]
    | succ idx =>
      simp at h
      have hmem := ih (start + 1) idx c h
      have harith : start + 1 + idx = start + (idx + 1) := by omega
      rw [harith] at hmem
      exact List.mem_cons_of_mem _ hmem

theorem errorRow_mem (n : Nat) : ∀ (es : List String) (start idx : Nat) (e : String),
    es[idx]? = some e → mkErrorRow (n + (start + idx)) (start + idx) e ∈ errorRows n es start := by
  intro es
  induction es with
  | nil =>
    intro start idx e h
    simp at h
  | cons x xs ih =>
    intro start idx e h
    cases idx with
    | zero =>
      simp at h
      subst h
      simp [errorRows]
    | succ idx =>
      simp at h
      have hmem := ih (start + 1) idx e h
      have harith : start + 1 + idx = start + (idx + 1) := by omega
      rw [harith] at hmem
      exact List.mem_cons_of_mem _ hmem

/-! ## Decimal round trip and id distinctness -/

theorem digitVal_digitChar : ∀ d : Fin 10, digitVal (digitChar d.val) = d.val := by
  decide

theorem foldl_digits_natToDigitsAux :
    ∀ (fuel : Nat), ∀ n ≤ fuel, ∀ (acc : List Char),
    (natToDigitsAux fuel n acc).foldl (fun a c => 10 * a + digitVal c) 0
      = acc.foldl (fun a c => 10 * a + digitVal c) n := by
  intro fuel
  induction fuel with
  | zero =>
    intro n hn acc
    have hn0 : n = 0 := by omega
    subst hn0
    rfl
  | succ fuel ih =>
    intro n hn acc
    cases n with
    | zero => rfl
    | succ m =>
      rw [natToDigitsAux]
      have hdivlt : (m + 1) / 10 < m + 1 := Nat.div_lt_self (Nat.succ_pos m) (by omega)
      have hdiv : (m + 1) / 10 ≤ fuel := by omega
      rw [ih _ hdiv]
      rw [List.foldl_cons]
      have hmod : (m + 1) % 10 < 10 := Nat.mod_lt _ (by omega)
      have hd := digitVal_digitChar ⟨(m + 1) % 10, hmod⟩
      simp only [Fin.val_mk] at hd
      rw [hd]
      have harith : 10 * ((m + 1) / 10) + (m + 1) % 10 = m + 1 := by omega
      rw [harith]

theorem digitsToNat_natToDigits (n : Nat) : digitsToNat (natToDigits n) = n := by
  by_cases h : n = 0
  · subst h
    decide
  · show (natToDigits n).foldl (fun a c => 10 * a + digitVal c) 0 = n
    unfold natToDigits
    rw [if_neg h]
    exact foldl_digits_natToDigitsAux n n le_rfl []

theorem natStr_injective {m n : Nat} (h : natStr m = natStr n) : m = n := by
  have h2 : natToDigits m = natToDigits n := congrArg String.data h
  have h3 := congrArg digitsToNat h2
  rwa [digitsToNat_natToDigits, digitsToNat_natToDigits] at h3

theorem rowId_injective {i j : Nat} (h : "row-" ++ natStr i = "row-" ++ natStr j) :
    i = j := by
  apply natStr_injective
  have h2 := congrArg String.data h
  rw [String.data_append, String.data_append] at h2
  exact String.ext (List.append_cancel_left h2)

theorem errorId_injective {i j : Nat} (h : "error-" ++ natStr i = "error-" ++ natStr j) :
    i = j := by
  apply natStr_injective
  have h2 := congrArg String.data h
  rw [String.data_append, String.data_append] at h2
  exact String.ext (List.append_cancel_left h2)

theorem rowId_ne_errorId (i j : Nat) : "row-" ++ natStr i ≠ "error-" ++ natStr j := by
  intro h
  have h2 := congrArg String.data h
  rw [String.data_append, String.data_append] at h2
  have h3 : ('r' :: 'o' :: 'w' :: '-' :: (natStr i).data)
      = ('e' :: 'r' :: 'r' :: 'o' :: 'r' :: '-' :: (natStr j).data) := h2
  simp at h3

theorem mem_ids_contactRows : ∀ (cs : List Contact) (start : Nat) (x : String),
    x ∈ (contactRows cs start).map (fun r => r.id) →
    ∃ j, start ≤ j ∧ x = "row-" ++ natStr j := by
  intro cs
  induction cs with
  | nil =>
    intro start x h
    simp [contactRows] at h
  | cons c rest ih =>
    intro start x h
    rw [contactRows, List.map_cons] at h
    rcases List.mem_cons.mp h with h | h
    · exact ⟨start, le_rfl, h⟩
    · obtain ⟨j, hj, hx⟩ := ih (start + 1) x h
      exact ⟨j, by omega, hx⟩

theorem mem_ids_errorRows (n : Nat) : ∀ (es : List String) (start : Nat) (x : String),
    x ∈ (errorRows n es start).map (fun r => r.id) →
    ∃ j, start ≤ j ∧ x = "error-" ++ natStr j := by
  intro es
  induction es with
  | nil =>
    intro start x h
    simp [errorRows] at h
  | cons e rest ih =>
    intro start x h
    rw [errorRows, List.map_cons] at h
    rcases List.mem_cons.mp h with h | h
    · exact ⟨start, le_rfl, h⟩
    · obtain ⟨j, hj, hx⟩ := ih (start + 1) x h
      exact ⟨j, by omega, hx⟩

theorem nodup_ids_contactRows : ∀ (cs : List Contact) (start : Nat),
    ((contactRows cs start).map (fun r => r.id)).Nodup := by
  intro cs
  induction cs with
  | nil =>
    intro start
    simp [contactRows]
  | cons c rest ih =>
    intro start
    rw [contactRows, List.map_cons]
    refine List.nodup_cons.mpr ⟨?_, ih (start + 1)⟩
    intro hmem
    obtain ⟨j, hj, hx⟩ := mem_ids_contactRows rest (start + 1) _ hmem
    have := rowId_injective hx
    omega

theorem nodup_ids_errorRows (n : Nat) : ∀ (es : List String) (start : Nat),
    ((errorRows n es start).map (fun r => r.id)).Nodup := by
  intro es
  induction es with
  | nil =>
    intro start
    simp [errorRows]
  | cons e rest ih =>
    intro start
    rw [errorRows, List.map_cons]
    refine List.nodup_cons.mpr ⟨?_, ih (start + 1)⟩
    intro hmem
    obtain ⟨j, hj, hx⟩ := mem_ids_errorRows n rest (start + 1) _ hmem
    have := errorId_injective hx
    omega

/-! ## Claim C9 -/

/-- Claim C9: the classifier never fails and its output is sorted
ascending by rowIndex; every valid contact and every parse error yields
exactly one row; an error row takes its rowIndex from a Row n reference
in its message when present, and otherwise receives the synthetic index
contacts.length + 2 idx + 1, which lies after the valid records and is
strictly increasing across unparseable errors, preserving their stable
order under the sort. -/
theorem spec_c9_classifier_order (contacts : List Contact) (errs : List String) :
    List.Pairwise (fun a b => a.rowIndex ≤ b.rowIndex) (classify contacts errs)
    ∧ (classify contacts errs).length = contacts.length + errs.length
    ∧ (∀ idx c, contacts[idx]? = some c → mkContactRow idx c ∈ classify contacts errs)
    ∧ (∀ idx e, errs[idx]? = some e →
        mkErrorRow (contacts.length + idx) idx e ∈ classify contacts errs
        ∧ (mkErrorRow (contacts.length + idx) idx e).rowIndex
            = (match matchRowRef e.data with
               | some n => n
               | none => contacts.length + idx + idx + 1))
    ∧ (∀ idx e, errs[idx]? = some e → matchRowRef e.data = none →
        contacts.length < (mkErrorRow (contacts.length + idx) idx e).rowIndex)
    ∧ (∀ idx1 idx2 e1 e2, idx1 < idx2 →
        errs[idx1]? = some e1 → errs[idx2]? = some e2 →
        matchRowRef e1.data = none → matchRowRef e2.data = none →
        (mkErrorRow (contacts.length + idx1) idx1 e1).rowIndex
          < (mkErrorRow (contacts.length + idx2) idx2 e2).rowIndex) := by
  have hperm : List.Perm (classify contacts errs)
      (contactRows contacts 0 ++ errorRows contacts.length errs 0) :=
    sortByRowIndex_perm _
  refine ⟨sortByRowIndex_sorted _, ?_, ?_, ?_, ?_, ?_⟩
  · rw [hperm.length_eq, List.length_append, length_contactRows, length_errorRows]
  · intro idx c h
    have hmem := contactRow_mem contacts 0 idx c h
    rw [Nat.zero_add] at hmem
    exact hperm.mem_iff.mpr (List.mem_append.mpr (Or.inl hmem))
  · intro idx e h
    refine ⟨?_, rfl⟩
    have hmem := errorRow_mem contacts.length errs 0 idx e h
    rw [Nat.zero_add] at hmem
    exact hperm.mem_iff.mpr (List.mem_append.mpr (Or.inr hmem))
  · intro idx e _ hm
    have hidx : (mkErrorRow (contacts.length + idx) idx e).rowIndex
        = contacts.length + idx + idx + 1 := by
      simp [mkErrorRow, hm]
    omega
  · intro idx1 idx2 e1 e2 hlt _ _ hm1 hm2
    have h1 : (mkErrorRow (contacts.length + idx1) idx1 e1).rowIndex
        = contacts.length + idx1 + idx1 + 1 := by
      simp [mkErrorRow, hm1]
    have h2 : (mkErrorRow (contacts.length + idx2) idx2 e2).rowIndex
        = contacts.length + idx2 + idx2 + 1 := by
      simp [mkErrorRow, hm2]
    omega

/-- Witness for C9 at a concrete import with one contact, one unparseable
error, and one parseable error. -/
theorem spec_c9_witness :
    List.Pairwise (fun a b => a.rowIndex ≤ b.rowIndex)
        (classify [{ name := "Ann", phone := "111" }] ["bad", "Row 7 x"])
    ∧ mkErrorRow (1 + 0) 0 "bad"
        ∈ classify [{ name := "Ann", phone := "111" }] ["bad", "Row 7 x"]
    ∧ 1 < (mkErrorRow (1 + 0) 0 "bad").rowIndex :=
  ⟨(spec_c9_classifier_order [{ name := "Ann", phone := "111" }] ["bad", "Row 7 x"]).1,
   ((spec_c9_classifier_order [{ name := "Ann", phone := "111" }] ["bad", "Row 7 x"]).2.2.2.1
      0 "bad" rfl).1,
   (spec_c9_classifier_order [{ name := "Ann", phone := "111" }] ["bad", "Row 7 x"]).2.2.2.2.1
      0 "bad" rfl rfl⟩

/-! ## Claim C10 -/

/-- Claim C10: the ids produced by the classifier are pairwise distinct
(row-i for the i-th valid record, error-j for the j-th parse error), so
each id identifies at most one row in the ledger. -/
theorem spec_c10_ids_nodup (contacts : List Contact) (errs : List String) :
    ((classify contacts errs).map (fun r => r.id)).Nodup := by
  unfold classify
  have hperm := (sortByRowIndex_perm
      (contactRows contacts 0 ++ errorRows contacts.length errs 0)).map (fun r => r.id)
  rw [hperm.nodup_iff, List.map_append, List.nodup_append]
  refine ⟨nodup_ids_contactRows _ _, nodup_ids_errorRows _ _ _, ?_⟩
  intro x hx hy
  obtain ⟨i, _, hxi⟩ := mem_ids_contactRows _ _ _ hx
  obtain ⟨j, _, hyj⟩ := mem_ids_errorRows _ _ _ _ hy
  exact rowId_ne_errorId i j (by rw [← hxi, hyj])

/-- Witness for C10 at a concrete import. -/
theorem spec_c10_witness :
    ((classify [{ name := "Ann", phone := "111" }] ["oops"]).map (fun r => r.id)).Nodup :=
  spec_c10_ids_nodup [{ name := "Ann", phone := "111" }] ["oops"]

end QueueMgr
